import Mathlib

/-!
MegaEthWatershed: the configuration header `config.h`.

A shallow embedding of the preprocessor definitions of `src/config.h`
(unit conversion, two-decimal truncation, level constants, state codes and
the serial print switches) together with the arithmetic of the target board
(Arduino Mega: 16-bit `int`, 32-bit `float` and `double`).
-/

namespace MegaEthWatershed

/-! ## Arithmetic of the target -/

/-- Width in bits of `int` on the Arduino Mega (AVR). -/
def INT_BITS : ℕ := 16

/-- Smallest value of `int`. -/
def INT_MIN : ℤ := -(2 ^ (INT_BITS - 1))

/-- Largest value of `int`. -/
def INT_MAX : ℤ := 2 ^ (INT_BITS - 1) - 1

/-- Conversion of a floating value to `int`: the fractional part is discarded
(the quotient of numerator by denominator, taken toward zero); the conversion
is undefined, here `none`, when the result does not fit in `int`. -/
def toInt (q : ℚ) : Option ℤ :=
  let t := Int.tdiv q.num (q.den : ℤ)
  if INT_MIN ≤ t ∧ t ≤ INT_MAX then some t else none

/-- Nearest integer, a tie going to the even neighbour. -/
def roundHalfEven (q : ℚ) : ℤ :=
  if q - (⌊q⌋ : ℚ) < 1 / 2 then ⌊q⌋
  else if 1 / 2 < q - (⌊q⌋ : ℚ) then ⌊q⌋ + 1
  else if ⌊q⌋ % 2 = 0 then ⌊q⌋ else ⌊q⌋ + 1

/-- Exponent of the unit in the last place of a binary32 value near `q`:
24 significant bits, the exponent never below that of the subnormals. -/
def ulpExp (q : ℚ) : ℤ := max (Int.log 2 |q|) (-126) - 23

/-- Rounding of a rational to IEEE 754 binary32, to nearest, ties to even
(finite range; the values of this development stay far below 2^128). -/
def roundBinary32 (q : ℚ) : ℚ :=
  (roundHalfEven (q / (2 : ℚ) ^ ulpExp q) : ℚ) * (2 : ℚ) ^ ulpExp q

/-- A floating-point arithmetic, given by the rounding applied to every literal
and to the result of every operation. -/
structure FloatArith where
  /-- Rounding of the exact result to a representable value. -/
  rnd : ℚ → ℚ

/-- Exact rational arithmetic: nothing is rounded. -/
def exactArith : FloatArith := ⟨fun q => q⟩

/-- The arithmetic of the board: `float` and `double` are both binary32. -/
def binary32 : FloatArith := ⟨roundBinary32⟩

namespace FloatArith

/-- Value of a decimal literal. -/
def lit (A : FloatArith) (q : ℚ) : ℚ := A.rnd q

/-- Conversion of an integer to floating point. -/
def ofInt (A : FloatArith) (n : ℤ) : ℚ := A.rnd (n : ℚ)

/-- Floating-point product. -/
def mul (A : FloatArith) (a b : ℚ) : ℚ := A.rnd (a * b)

/-- Floating-point quotient. -/
def div (A : FloatArith) (a b : ℚ) : ℚ := A.rnd (a / b)

/-- Floating-point difference. -/
def sub (A : FloatArith) (a b : ℚ) : ℚ := A.rnd (a - b)

end FloatArith

/-! ## Unit conversion and truncation -/

/-- Source: `#define IN2CM(inches) ((inches)*(2.54))`. -/
def IN2CM (A : FloatArith) (inches : ℚ) : ℚ := A.mul inches (A.lit 2.54)

/-- Source: `#define CM2IN(cms) ((cms)/(2.54))`. -/
def CM2IN (A : FloatArith) (cms : ℚ) : ℚ := A.div cms (A.lit 2.54)

/-- Source: `#define TRIM_PRECISION(fp) (float( int( ((fp) * 100) )) / (100.0))`.
The floating argument is multiplied by the integer 100 converted to floating
point, the product is converted to `int`, the integer back to `float`, and that
is divided by the literal 100.0; no value when the conversion to `int` is undefined. -/
def TRIM_PRECISION (A : FloatArith) (fp : ℚ) : Option ℚ :=
  (toInt (A.mul fp (A.ofInt 100))).map fun n => A.div (A.ofInt n) (A.lit 100.0)

/-! ## Dimensions -/

/-- Source: `#define SENSOR_H 9.25`. -/
def SENSOR_H : ℚ := 9.25

/-- Source: `#define FILL_H 3.00`. -/
def FILL_H : ℚ := 3.00

/-- Source: `#define RISER_H 0.00`. -/
def RISER_H : ℚ := 0.00

/-- Source: `#define FLUME_SLUMP 1.2`. -/
def FLUME_SLUMP : ℚ := 1.2

/-- Source: `#define ACCOUNT_FOR_SLUMP`: the slump correction is enabled. -/
def ACCOUNT_FOR_SLUMP : Bool := true

/-- The dip below the sensor, in inches, as the comment on `ACCOUNT_FOR_SLUMP`
gives it: a 0.7 inch dip below the sensor. -/
def documentedSlumpDip : ℚ := 0.7

/-- Source: `#define EMPTY_LEVEL_MM ((float) ((IN2CM(SENSOR_H)) * 10.00))`. -/
def EMPTY_LEVEL_MM (A : FloatArith) : ℚ :=
  A.rnd (A.mul (IN2CM A (A.lit SENSOR_H)) (A.lit 10.00))

/-- Source: `#define FULL_LEVEL_MM ((float) ((IN2CM(FILL_H)) * 10.00))`. -/
def FULL_LEVEL_MM (A : FloatArith) : ℚ :=
  A.rnd (A.mul (IN2CM A (A.lit FILL_H)) (A.lit 10.00))

/-! ## State codes -/

/-- Source: `#define EMPTY 0`. -/
def EMPTY : ℤ := 0

/-- Source: `#define OK 1`. -/
def OK : ℤ := 1

/-- Source: `#define FULL 2`. -/
def FULL : ℤ := 2

/-- Source: `#define OVERFILL 3`. -/
def OVERFILL : ℤ := 3

/-- Source: `#define ERR 4`. -/
def ERR : ℤ := 4

/-- Source: `#define ZERO 5`. -/
def ZERO : ℤ := 5

/-- Modelled from the spec: the enumeration LevelState with its six members;
the header itself only has the six integer tags. -/
inductive LevelState
  | EMPTY | OK | FULL | OVERFILL | ERR | ZERO
  deriving DecidableEq, Repr

/-- The integer tag the header gives to each state. -/
def LevelState.code : LevelState → ℤ
  | .EMPTY => MegaEthWatershed.EMPTY
  | .OK => MegaEthWatershed.OK
  | .FULL => MegaEthWatershed.FULL
  | .OVERFILL => MegaEthWatershed.OVERFILL
  | .ERR => MegaEthWatershed.ERR
  | .ZERO => MegaEthWatershed.ZERO

/-- The state a tag stands for, if any. -/
def LevelState.ofCode (n : ℤ) : Option LevelState :=
  if n = MegaEthWatershed.EMPTY then some .EMPTY
  else if n = MegaEthWatershed.OK then some .OK
  else if n = MegaEthWatershed.FULL then some .FULL
  else if n = MegaEthWatershed.OVERFILL then some .OVERFILL
  else if n = MegaEthWatershed.ERR then some .ERR
  else if n = MegaEthWatershed.ZERO then some .ZERO
  else none

/-! ## Compile-time switches and the serial print families -/

/-- The switches of the header that gate the print families: whether `DEBUG`
and `NO_SERIAL` are defined. -/
structure Switches where
  /-- Whether `#define DEBUG` is active. -/
  DEBUG : Bool
  /-- Whether `#define NO_SERIAL` is active. -/
  NO_SERIAL : Bool
  deriving DecidableEq, Repr

/-- The header as shipped: both `DEBUG` and `NO_SERIAL` are defined. -/
def shipped : Switches := ⟨true, true⟩

/-- What a print invocation expands to: nothing, or a call on the serial
port with the arguments passed through. -/
inductive Expansion
  | nothing
  | serialPrint (args : String)
  | serialPrintln (args : String)
  deriving DecidableEq, Repr

/-- Source `DPRINT(...)`: `Serial.print(__VA_ARGS__)` under `#ifdef DEBUG`, else empty. -/
def DPRINT (c : Switches) (args : String) : Expansion :=
  if c.DEBUG then .serialPrint args else .nothing

/-- Source `DPRINTLN(...)`: `Serial.println(__VA_ARGS__)` under `#ifdef DEBUG`, else empty. -/
def DPRINTLN (c : Switches) (args : String) : Expansion :=
  if c.DEBUG then .serialPrintln args else .nothing

/-- Source `SPRINT(...)`: `Serial.print(__VA_ARGS__)` under `#ifndef NO_SERIAL`, else empty. -/
def SPRINT (c : Switches) (args : String) : Expansion :=
  if !c.NO_SERIAL then .serialPrint args else .nothing

/-- Source `SPRINTLN(...)`: `Serial.println(__VA_ARGS__)` under `#ifndef NO_SERIAL`, else empty. -/
def SPRINTLN (c : Switches) (args : String) : Expansion :=
  if !c.NO_SERIAL then .serialPrintln args else .nothing

/-! ## The conversion definitions as token sequences -/

/-- Tokens of the arithmetic expressions the conversion definitions expand to. -/
inductive Tok
  | num (q : ℚ)
  | plus
  | minus
  | star
  | slash
  | lparen
  | rparen
  deriving DecidableEq

/-- Entries of the operator stack: a pending binary operator or an open parenthesis. -/
inductive Pending
  | add
  | sub
  | mul
  | div
  | paren
  deriving DecidableEq

/-- Binding strength of a pending operator; an open parenthesis binds nothing. -/
def Pending.prec : Pending → ℕ
  | .add => 1
  | .sub => 1
  | .mul => 2
  | .div => 2
  | .paren => 0

/-- Applies a binary operator to the two topmost values, in exact arithmetic;
a division by zero has no value. -/
def applyPending : Pending → List ℚ → Option (List ℚ)
  | .add, b :: a :: r => some ((a + b) :: r)
  | .sub, b :: a :: r => some ((a - b) :: r)
  | .mul, b :: a :: r => some ((a * b) :: r)
  | .div, b :: a :: r => if b = 0 then none else some ((a / b) :: r)
  | _, _ => none

/-- Applies the pending operators that bind at least as strongly as `p`
(operators of equal strength associate to the left), down to an open parenthesis. -/
def reduceTo (p : ℕ) : List Pending → List ℚ → Option (List Pending × List ℚ)
  | [], vals => some ([], vals)
  | o :: ops, vals =>
    if o.prec < p then some (o :: ops, vals)
    else (applyPending o vals).bind fun vs => reduceTo p ops vs

/-- Closes a parenthesis: applies the pending operators down to the matching
open parenthesis and removes it. -/
def closeParen : List Pending → List ℚ → Option (List Pending × List ℚ)
  | [], _ => none
  | .paren :: ops, vals => some (ops, vals)
  | o :: ops, vals => (applyPending o vals).bind fun vs => closeParen ops vs

/-- Finishes an expression: applies what is pending; exactly one value must remain. -/
def finish : List Pending → List ℚ → Option ℚ
  | [], [v] => some v
  | [], _ => none
  | o :: ops, vals => (applyPending o vals).bind fun vs => finish ops vs

/-- Evaluates a token sequence with the precedence and associativity of C
for the four operators and parentheses, from the given stacks. -/
def evalFrom : List Tok → List Pending → List ℚ → Option ℚ
  | [], ops, vals => finish ops vals
  | .num q :: ts, ops, vals => evalFrom ts ops (q :: vals)
  | .plus :: ts, ops, vals =>
    (reduceTo 1 ops vals).bind fun s => evalFrom ts (.add :: s.1) s.2
  | .minus :: ts, ops, vals =>
    (reduceTo 1 ops vals).bind fun s => evalFrom ts (.sub :: s.1) s.2
  | .star :: ts, ops, vals =>
    (reduceTo 2 ops vals).bind fun s => evalFrom ts (.mul :: s.1) s.2
  | .slash :: ts, ops, vals =>
    (reduceTo 2 ops vals).bind fun s => evalFrom ts (.div :: s.1) s.2
  | .lparen :: ts, ops, vals => evalFrom ts (.paren :: ops) vals
  | .rparen :: ts, ops, vals =>
    (closeParen ops vals).bind fun s => evalFrom ts s.1 s.2

/-- Value of an expression given as a token sequence. -/
def evalTokens (ts : List Tok) : Option ℚ := evalFrom ts [] []

/-- Replacement list of `IN2CM(inches)`: `((inches)*(2.54))`, the argument
substituted token for token. -/
def IN2CM_tokens (inches : List Tok) : List Tok :=
  [.lparen, .lparen] ++ inches ++ [.rparen, .star, .lparen, .num 2.54, .rparen, .rparen]

/-- Replacement list of `CM2IN(cms)`: `((cms)/(2.54))`, the argument
substituted token for token. -/
def CM2IN_tokens (cms : List Tok) : List Tok :=
  [.lparen, .lparen] ++ cms ++ [.rparen, .slash, .lparen, .num 2.54, .rparen, .rparen]

/-! ## Definitions that follow the specification -/

/-- The integer part of a value, taken toward zero, in the words of the
specification: the floor of a non-negative value, the ceiling of a negative one. -/
def truncTowardZero (q : ℚ) : ℤ := if 0 ≤ q then ⌊q⌋ else ⌈q⌉

/-- Rounding to the nearest hundredth, the behaviour the specification rules out. -/
def roundHundredths (q : ℚ) : ℚ := (round (100 * q) : ℚ) / 100

/-- Modelled from the spec: the clamp of LevelClassifier, "clamping to the
closed range"; the sketch that performs it is not part of the sources. A value
below the lower end becomes the lower end, one above the upper end the upper end. -/
def clampDepth (lo hi d : ℚ) : ℚ := if d < lo then lo else if hi < d then hi else d

/-- The documented ordering ZERO < OK < FULL < OVERFILL of the specification, as
a rank; EMPTY and ERR have no place in it. -/
def LevelState.rank : LevelState → Option ℕ
  | .ZERO => some 0
  | .OK => some 1
  | .FULL => some 2
  | .OVERFILL => some 3
  | .EMPTY => none
  | .ERR => none

/-- Whether a state stands at or below another in the documented ordering; a
state outside the ordering is not compared with any. -/
def LevelState.atMost (s t : LevelState) : Bool :=
  match s.rank, t.rank with
  | some i, some j => decide (i ≤ j)
  | _, _ => false

/-! ## Truncation and rounding: basic facts -/

theorem tdiv_num_den_eq_truncTowardZero (q : ℚ) :
    Int.tdiv q.num (q.den : ℤ) = truncTowardZero q := by
  unfold truncTowardZero
  split_ifs with h
  · rw [Int.tdiv_eq_ediv (Rat.num_nonneg.mpr h) (Int.natCast_nonneg _), Rat.floor_def]
  · have hneg : 0 ≤ (-q).num := Rat.num_nonneg.mpr (by linarith)
    have h1 : Int.tdiv (-q).num ((-q).den : ℤ) = ⌊-q⌋ := by
      rw [Int.tdiv_eq_ediv hneg (Int.natCast_nonneg _), Rat.floor_def]
    rw [Rat.neg_num, Rat.neg_den, Int.neg_tdiv, Int.floor_neg] at h1
    exact neg_injective h1

theorem toInt_eq_some_iff (q : ℚ) (n : ℤ) :
    toInt q = some n ↔ truncTowardZero q = n ∧ INT_MIN ≤ n ∧ n ≤ INT_MAX := by
  unfold toInt
  simp only [tdiv_num_den_eq_truncTowardZero]
  constructor
  · intro h
    split_ifs at h with hr
    · simp only [Option.some.injEq] at h
      subst h
      exact ⟨rfl, hr⟩
  · rintro ⟨rfl, hr⟩
    rw [if_pos hr]

theorem toInt_of_range (q : ℚ) (h : INT_MIN ≤ truncTowardZero q ∧ truncTowardZero q ≤ INT_MAX) :
    toInt q = some (truncTowardZero q) :=
  (toInt_eq_some_iff q _).mpr ⟨rfl, h⟩

theorem truncTowardZero_intCast (n : ℤ) : truncTowardZero (n : ℚ) = n := by
  unfold truncTowardZero
  split_ifs <;> simp

theorem roundHalfEven_intCast (n : ℤ) : roundHalfEven (n : ℚ) = n := by
  unfold roundHalfEven
  simp

theorem abs_roundHalfEven_sub_le (q : ℚ) : |(roundHalfEven q : ℚ) - q| ≤ 1 / 2 := by
  have h0 : (⌊q⌋ : ℚ) ≤ q := Int.floor_le q
  have h1 : q < (⌊q⌋ : ℚ) + 1 := Int.lt_floor_add_one q
  unfold roundHalfEven
  rw [abs_le]
  split_ifs with ha hb hc
  · constructor <;> linarith
  · push_cast; constructor <;> linarith
  · constructor <;> linarith
  · push_cast; constructor <;> linarith

theorem roundHalfEven_eq_of_abs_lt (q : ℚ) (m : ℤ) (h : |q - (m : ℚ)| < 1 / 2) :
    roundHalfEven q = m := by
  rw [abs_lt] at h
  have hb := abs_le.mp (abs_roundHalfEven_sub_le q)
  have h2 : |((roundHalfEven q - m : ℤ) : ℚ)| < 1 := by
    rw [abs_lt]; push_cast; constructor <;> linarith [h.1, h.2, hb.1, hb.2]
  have h3 : |roundHalfEven q - m| < 1 := by exact_mod_cast h2
  have h4 := Int.abs_lt_one_iff.mp h3
  omega

theorem ulpExp_eq {q : ℚ} {e : ℤ} (h1 : (2 : ℚ) ^ e ≤ |q|) (h2 : |q| < (2 : ℚ) ^ (e + 1))
    (he : -126 ≤ e) : ulpExp q = e - 23 := by
  have hpos : (0 : ℚ) < |q| := lt_of_lt_of_le (by positivity) h1
  have ha : e ≤ Int.log 2 |q| :=
    (Int.zpow_le_iff_le_log (by norm_num) hpos).mp (by exact_mod_cast h1)
  have hb : Int.log 2 |q| < e + 1 :=
    (Int.lt_zpow_iff_log_lt (by norm_num) hpos).mp (by exact_mod_cast h2)
  unfold ulpExp
  rw [max_eq_left (by omega)]
  omega

theorem ulpExp_le {q : ℚ} {k : ℤ} (hq : q ≠ 0) (h : |q| < (2 : ℚ) ^ (k + 1)) (hk : -126 ≤ k) :
    ulpExp q ≤ k - 23 := by
  unfold ulpExp
  have hpos : (0 : ℚ) < |q| := abs_pos.mpr hq
  have hb : Int.log 2 |q| < k + 1 :=
    (Int.lt_zpow_iff_log_lt (by norm_num) hpos).mp (by exact_mod_cast h)
  have : max (Int.log 2 |q|) (-126) ≤ k := max_le (by omega) hk
  omega

theorem roundBinary32_zero : roundBinary32 0 = 0 := by
  unfold roundBinary32
  rw [zero_div]
  have := roundHalfEven_intCast 0
  simp only [Int.cast_zero] at this
  rw [this]
  simp

theorem roundBinary32_eq {q : ℚ} (e m : ℤ) (h1 : (2 : ℚ) ^ e ≤ |q|)
    (h2 : |q| < (2 : ℚ) ^ (e + 1)) (he : -126 ≤ e)
    (hm : |q / (2 : ℚ) ^ (e - 23) - (m : ℚ)| < 1 / 2) :
    roundBinary32 q = (m : ℚ) * (2 : ℚ) ^ (e - 23) := by
  unfold roundBinary32
  rw [ulpExp_eq h1 h2 he, roundHalfEven_eq_of_abs_lt _ m hm]

theorem abs_roundBinary32_sub_le (q : ℚ) :
    |roundBinary32 q - q| ≤ (2 : ℚ) ^ ulpExp q / 2 := by
  have hu : (0 : ℚ) < (2 : ℚ) ^ ulpExp q := by positivity
  have h := abs_roundHalfEven_sub_le (q / (2 : ℚ) ^ ulpExp q)
  have key : roundBinary32 q - q
      = ((roundHalfEven (q / (2 : ℚ) ^ ulpExp q) : ℚ) - q / (2 : ℚ) ^ ulpExp q)
        * (2 : ℚ) ^ ulpExp q := by
    unfold roundBinary32
    field_simp
  rw [key, abs_mul, abs_of_pos hu]
  calc _ ≤ 1 / 2 * (2 : ℚ) ^ ulpExp q := mul_le_mul_of_nonneg_right h hu.le
    _ = (2 : ℚ) ^ ulpExp q / 2 := by ring

theorem abs_roundBinary32_sub_le_of_lt {q : ℚ} {k : ℤ} (h : |q| < (2 : ℚ) ^ (k + 1))
    (hk : -126 ≤ k) : |roundBinary32 q - q| ≤ (2 : ℚ) ^ (k - 24) := by
  rcases eq_or_ne q 0 with rfl | hq
  · rw [roundBinary32_zero]; simp; positivity
  · have h1 := abs_roundBinary32_sub_le q
    have h2 : (2 : ℚ) ^ ulpExp q ≤ (2 : ℚ) ^ (k - 23) :=
      zpow_le_zpow_right₀ (by norm_num) (ulpExp_le hq h hk)
    have h3 : (2 : ℚ) ^ (k - 23) = 2 * (2 : ℚ) ^ (k - 24) := by
      rw [show k - 23 = (k - 24) + 1 by ring, zpow_add_one₀ (by norm_num)]; ring
    linarith

theorem roundBinary32_intCast (n : ℤ) (h : |n| < 2 ^ 24) : roundBinary32 (n : ℚ) = n := by
  rcases eq_or_ne n 0 with rfl | hn
  · simpa using roundBinary32_zero
  · have hq : (n : ℚ) ≠ 0 := by exact_mod_cast hn
    have hlt : |(n : ℚ)| < (2 : ℚ) ^ ((23 : ℤ) + 1) := by
      have : |(n : ℚ)| = ((|n| : ℤ) : ℚ) := by simp
      rw [this]
      have : ((2 : ℚ) ^ ((23 : ℤ) + 1)) = (((2 : ℤ) ^ 24 : ℤ) : ℚ) := by norm_num
      rw [this]
      exact_mod_cast h
    have hle := ulpExp_le hq hlt (by norm_num)
    obtain ⟨j, hj⟩ : ∃ j : ℕ, ulpExp (n : ℚ) = -(j : ℤ) := ⟨(-(ulpExp (n : ℚ))).toNat, by omega⟩
    unfold roundBinary32
    rw [hj]
    have hd : (n : ℚ) / (2 : ℚ) ^ (-(j : ℤ)) = ((n * 2 ^ j : ℤ) : ℚ) := by
      rw [zpow_neg, zpow_natCast]; push_cast; field_simp
    rw [hd, roundHalfEven_intCast, zpow_neg, zpow_natCast]
    push_cast
    field_simp

theorem roundBinary32_eq_of_pos {q : ℚ} (e m : ℤ) (h1 : (2 : ℚ) ^ e ≤ q)
    (h2 : q < (2 : ℚ) ^ (e + 1)) (he : -126 ≤ e)
    (hm1 : (m : ℚ) - 1 / 2 < q / (2 : ℚ) ^ (e - 23))
    (hm2 : q / (2 : ℚ) ^ (e - 23) < (m : ℚ) + 1 / 2) :
    roundBinary32 q = (m : ℚ) * (2 : ℚ) ^ (e - 23) := by
  have hq : 0 < q := lt_of_lt_of_le (by positivity) h1
  apply roundBinary32_eq e m
  · rwa [abs_of_pos hq]
  · rwa [abs_of_pos hq]
  · exact he
  · rw [abs_lt]; constructor <;> linarith

theorem roundHalfEven_tie_even (f : ℤ) (hf : f % 2 = 0) :
    roundHalfEven ((f : ℚ) + 1 / 2) = f := by
  have hfl : ⌊(f : ℚ) + 1 / 2⌋ = f := by
    rw [Int.floor_eq_iff]; constructor <;> norm_num
  unfold roundHalfEven
  rw [hfl]
  norm_num [hf]

theorem roundBinary32_tie_even {q : ℚ} (e f : ℤ) (h1 : (2 : ℚ) ^ e ≤ q)
    (h2 : q < (2 : ℚ) ^ (e + 1)) (he : -126 ≤ e) (hf : f % 2 = 0)
    (hq : q / (2 : ℚ) ^ (e - 23) = (f : ℚ) + 1 / 2) :
    roundBinary32 q = (f : ℚ) * (2 : ℚ) ^ (e - 23) := by
  have hpos : 0 < q := lt_of_lt_of_le (by positivity) h1
  unfold roundBinary32
  rw [ulpExp_eq (e := e) (by rwa [abs_of_pos hpos]) (by rwa [abs_of_pos hpos]) he, hq,
    roundHalfEven_tie_even f hf]

/-! ## Values of the board arithmetic on the literals and constants of the header -/

theorem binary32_ofInt (n : ℤ) (h : |n| < 2 ^ 24) : binary32.ofInt n = n :=
  roundBinary32_intCast n h

theorem binary32_lit_100 : binary32.lit 100.0 = 100 := by
  have h := roundBinary32_intCast 100 (by norm_num)
  have e : ((100 : ℤ) : ℚ) = 100.0 := by norm_num
  rw [e] at h
  rw [FloatArith.lit]
  show roundBinary32 100.0 = 100
  rw [h]; norm_num

theorem binary32_lit_254 : binary32.lit 2.54 = 2663383 / 1048576 := by
  show roundBinary32 2.54 = _
  rw [roundBinary32_eq_of_pos 1 10653532 (by norm_num) (by norm_num) (by norm_num)
    (by norm_num) (by norm_num)]
  norm_num

theorem binary32_lit_SENSOR_H : binary32.lit SENSOR_H = 9.25 := by
  show roundBinary32 SENSOR_H = _
  unfold SENSOR_H
  rw [roundBinary32_eq_of_pos 3 9699328 (by norm_num) (by norm_num) (by norm_num)
    (by norm_num) (by norm_num)]
  norm_num

theorem binary32_lit_FILL_H : binary32.lit FILL_H = 3 := by
  show roundBinary32 FILL_H = _
  unfold FILL_H
  rw [roundBinary32_eq_of_pos 1 12582912 (by norm_num) (by norm_num) (by norm_num)
    (by norm_num) (by norm_num)]
  norm_num

theorem binary32_lit_10 : binary32.lit 10.00 = 10 := by
  show roundBinary32 10.00 = _
  rw [roundBinary32_eq_of_pos 3 10485760 (by norm_num) (by norm_num) (by norm_num)
    (by norm_num) (by norm_num)]
  norm_num

theorem EMPTY_LEVEL_MM_binary32 : EMPTY_LEVEL_MM binary32 = 7698841 / 32768 := by
  unfold EMPTY_LEVEL_MM IN2CM
  rw [binary32_lit_SENSOR_H, binary32_lit_254, binary32_lit_10]
  show roundBinary32 (roundBinary32 (roundBinary32 (9.25 * (2663383 / 1048576)) * 10)) = _
  rw [roundBinary32_eq_of_pos (q := 9.25 * (2663383 / 1048576)) 4 12318146 (by norm_num)
    (by norm_num) (by norm_num) (by norm_num) (by norm_num)]
  rw [roundBinary32_tie_even (q := (12318146 : ℤ) * (2 : ℚ) ^ ((4 : ℤ) - 23) * 10) 7 15397682
    (by norm_num) (by norm_num) (by norm_num) (by norm_num) (by norm_num)]
  rw [roundBinary32_eq_of_pos (q := (15397682 : ℤ) * (2 : ℚ) ^ ((7 : ℤ) - 23)) 7 15397682
    (by norm_num) (by norm_num) (by norm_num) (by norm_num) (by norm_num)]
  norm_num

theorem FULL_LEVEL_MM_binary32 : FULL_LEVEL_MM binary32 = 4993843 / 65536 := by
  unfold FULL_LEVEL_MM IN2CM
  rw [binary32_lit_FILL_H, binary32_lit_254, binary32_lit_10]
  show roundBinary32 (roundBinary32 (roundBinary32 (3 * (2663383 / 1048576)) * 10)) = _
  rw [roundBinary32_eq_of_pos (q := 3 * (2663383 / 1048576)) 2 15980298 (by norm_num)
    (by norm_num) (by norm_num) (by norm_num) (by norm_num)]
  rw [roundBinary32_eq_of_pos (q := (15980298 : ℤ) * (2 : ℚ) ^ ((2 : ℤ) - 23) * 10) 6 9987686
    (by norm_num) (by norm_num) (by norm_num) (by norm_num) (by norm_num)]
  rw [roundBinary32_eq_of_pos (q := (9987686 : ℤ) * (2 : ℚ) ^ ((6 : ℤ) - 23)) 6 9987686
    (by norm_num) (by norm_num) (by norm_num) (by norm_num) (by norm_num)]
  norm_num

/-! ## The token sequences agree with the functions -/

theorem evalTokens_IN2CM_num (x : ℚ) :
    evalTokens (IN2CM_tokens [.num x]) = some (IN2CM exactArith x) := by
  simp [evalTokens, IN2CM_tokens, evalFrom, reduceTo, closeParen, finish, applyPending,
    Pending.prec, IN2CM, FloatArith.mul, FloatArith.lit, exactArith]

theorem evalTokens_CM2IN_num (x : ℚ) :
    evalTokens (CM2IN_tokens [.num x]) = some (CM2IN exactArith x) := by
  have h : (2.54 : ℚ) ≠ 0 := by norm_num
  simp [evalTokens, CM2IN_tokens, evalFrom, reduceTo, closeParen, finish, applyPending,
    Pending.prec, CM2IN, FloatArith.div, FloatArith.lit, exactArith, h]

theorem evalTokens_CM2IN_IN2CM_sum (a b : ℚ) :
    evalTokens (CM2IN_tokens (IN2CM_tokens [.num a, .plus, .num b])) = some (a + b) := by
  have h : (2.54 : ℚ) ≠ 0 := by norm_num
  simp [evalTokens, CM2IN_tokens, IN2CM_tokens, evalFrom, reduceTo, closeParen, finish, applyPending,
    Pending.prec, h]
theorem evalTokens_IN2CM_CM2IN_sum (a b : ℚ) :
    evalTokens (IN2CM_tokens (CM2IN_tokens [.num a, .plus, .num b])) = some (a + b) := by
  have h : (2.54 : ℚ) ≠ 0 := by norm_num
  simp [evalTokens, CM2IN_tokens, IN2CM_tokens, evalFrom, reduceTo, closeParen, finish, applyPending,
    Pending.prec, h]

/-! ## Values in exact arithmetic -/

theorem IN2CM_exact (x : ℚ) : IN2CM exactArith x = x * 2.54 := rfl

theorem CM2IN_exact (x : ℚ) : CM2IN exactArith x = x / 2.54 := rfl

theorem EMPTY_LEVEL_MM_exact : EMPTY_LEVEL_MM exactArith = 234.95 := by
  show SENSOR_H * 2.54 * 10.00 = 234.95
  unfold SENSOR_H
  norm_num

theorem FULL_LEVEL_MM_exact : FULL_LEVEL_MM exactArith = 76.2 := by
  show FILL_H * 2.54 * 10.00 = 76.2
  unfold FILL_H
  norm_num

theorem clampDepth_mem (lo hi d : ℚ) (h : lo ≤ hi) :
    lo ≤ clampDepth lo hi d ∧ clampDepth lo hi d ≤ hi := by
  unfold clampDepth
  split_ifs with h1 h2
  · exact ⟨le_refl _, h⟩
  · exact ⟨h, le_refl _⟩
  · exact ⟨not_lt.mp h1, not_lt.mp h2⟩

/-! ## Truncation toward zero: range and neighbourhood of an integer -/

theorem truncTowardZero_le {y : ℚ} {b : ℤ} (hb : 0 ≤ b) (h : y < (b : ℚ) + 1) :
    truncTowardZero y ≤ b := by
  unfold truncTowardZero
  split_ifs with h0
  · have : ⌊y⌋ < b + 1 := Int.floor_lt.mpr (by push_cast; exact h)
    omega
  · have : ⌈y⌉ ≤ 0 := Int.ceil_le.mpr (by push_cast; linarith)
    omega

theorem le_truncTowardZero {y : ℚ} {a : ℤ} (ha : a ≤ 0) (h : (a : ℚ) - 1 < y) :
    a ≤ truncTowardZero y := by
  unfold truncTowardZero
  split_ifs with h0
  · have : 0 ≤ ⌊y⌋ := Int.floor_nonneg.mpr h0
    omega
  · have : a - 1 < ⌈y⌉ := Int.lt_ceil.mpr (by push_cast; exact h)
    omega

theorem truncTowardZero_near_int (y : ℚ) (n : ℤ) (h : |y - (n : ℚ)| < 1) :
    truncTowardZero y = n ∨ truncTowardZero y = n - n.sign := by
  rw [abs_lt] at h
  obtain ⟨hl, hu⟩ := h
  have hfl : n - 1 ≤ ⌊y⌋ := Int.le_floor.mpr (by push_cast; linarith)
  have hfu : ⌊y⌋ < n + 1 := Int.floor_lt.mpr (by push_cast; linarith)
  have hcl : n - 1 < ⌈y⌉ := Int.lt_ceil.mpr (by push_cast; linarith)
  have hcu : ⌈y⌉ ≤ n + 1 := Int.ceil_le.mpr (by push_cast; linarith)
  unfold truncTowardZero
  rcases lt_trichotomy n 0 with hn | hn | hn
  · have hy : ¬ (0 ≤ y) := by
      have : (n : ℚ) + 1 ≤ 0 := by exact_mod_cast hn
      intro h0; linarith
    rw [if_neg hy, Int.sign_eq_neg_one_of_neg hn]
    omega
  · subst hn
    rw [Int.sign_zero]
    left
    by_cases h0 : 0 ≤ y
    · rw [if_pos h0]
      have : 0 ≤ ⌊y⌋ := Int.floor_nonneg.mpr h0
      omega
    · rw [if_neg h0]
      have : ⌈y⌉ ≤ 0 := Int.ceil_le.mpr (by push_cast; linarith)
      omega
  · have hy : 0 ≤ y := by
      have : (1 : ℚ) ≤ n := by exact_mod_cast hn
      linarith
    rw [if_pos hy, Int.sign_eq_one_of_pos hn]
    omega

theorem INT_MIN_eq : INT_MIN = -32768 := by decide

theorem INT_MAX_eq : INT_MAX = 32767 := by decide

/-! ## TRIM_PRECISION unfolded in the two arithmetics -/

theorem TRIM_PRECISION_exact_eq (x : ℚ) :
    TRIM_PRECISION exactArith x = (toInt (x * 100)).map fun (n : ℤ) => (n : ℚ) / 100 := by
  unfold TRIM_PRECISION FloatArith.mul FloatArith.div FloatArith.ofInt FloatArith.lit exactArith
  have e : (((100 : ℤ) : ℚ)) = 100 := by norm_num
  have e2 : (100.0 : ℚ) = 100 := by norm_num
  simp only [e, e2]

theorem TRIM_PRECISION_exact_of_range (x : ℚ) (hlo : (INT_MIN : ℚ) ≤ 100 * x)
    (hhi : 100 * x ≤ (INT_MAX : ℚ)) :
    TRIM_PRECISION exactArith x = some ((truncTowardZero (100 * x) : ℚ) / 100) := by
  rw [TRIM_PRECISION_exact_eq, mul_comm x 100, toInt_of_range]
  · rfl
  · rw [INT_MIN_eq] at hlo ⊢
    rw [INT_MAX_eq] at hhi ⊢
    constructor
    · exact le_truncTowardZero (by norm_num) (by push_cast at hlo ⊢; linarith)
    · exact truncTowardZero_le (by norm_num) (by push_cast at hhi ⊢; linarith)

theorem binary32_mul_100 (x : ℚ) : binary32.mul x (binary32.ofInt 100) = roundBinary32 (x * 100) := by
  rw [binary32_ofInt 100 (by norm_num)]
  unfold FloatArith.mul binary32
  norm_num

theorem binary32_div_100 (n : ℤ) (h : |n| < 2 ^ 24) :
    binary32.div (binary32.ofInt n) (binary32.lit 100.0) = roundBinary32 ((n : ℚ) / 100) := by
  rw [binary32_ofInt n h, binary32_lit_100]
  rfl

theorem TRIM_PRECISION_binary32_of_toInt (x : ℚ) (n : ℤ)
    (h : toInt (roundBinary32 (x * 100)) = some n) :
    TRIM_PRECISION binary32 x = some (roundBinary32 ((n : ℚ) / 100)) := by
  have hr := ((toInt_eq_some_iff _ _).mp h).2
  rw [INT_MIN_eq, INT_MAX_eq] at hr
  have hn : |n| < 2 ^ 24 := by rw [abs_lt]; constructor <;> omega
  unfold TRIM_PRECISION
  rw [binary32_mul_100, h, Option.map_some', binary32_div_100 n hn]

theorem toInt_roundBinary32_of_range (q : ℚ) (hlo : (INT_MIN : ℚ) ≤ q)
    (hhi : q ≤ (INT_MAX : ℚ)) :
    toInt (roundBinary32 q) = some (truncTowardZero (roundBinary32 q)) := by
  rw [INT_MIN_eq] at hlo
  rw [INT_MAX_eq] at hhi
  push_cast at hlo hhi
  have herr := abs_roundBinary32_sub_le_of_lt (q := q) (k := 15)
    (by rw [abs_lt]; constructor <;> norm_num <;> linarith) (by norm_num)
  rw [abs_le] at herr
  have e : (2 : ℚ) ^ ((15 : ℤ) - 24) = 1 / 512 := by norm_num
  rw [e] at herr
  apply toInt_of_range
  rw [INT_MIN_eq, INT_MAX_eq]
  constructor
  · exact le_truncTowardZero (by norm_num) (by push_cast; linarith [herr.1])
  · exact truncTowardZero_le (by norm_num) (by push_cast; linarith [herr.2])

theorem truncTowardZero_eq_of_nonneg {y : ℚ} {n : ℤ} (h0 : 0 ≤ y) (h1 : (n : ℚ) ≤ y)
    (h2 : y < (n : ℚ) + 1) : truncTowardZero y = n := by
  unfold truncTowardZero
  rw [if_pos h0, Int.floor_eq_iff]
  exact ⟨h1, h2⟩

theorem truncTowardZero_eq_of_neg {y : ℚ} {n : ℤ} (h0 : y < 0) (h1 : (n : ℚ) - 1 < y)
    (h2 : y ≤ (n : ℚ)) : truncTowardZero y = n := by
  unfold truncTowardZero
  rw [if_neg (not_le.mpr h0), Int.ceil_eq_iff]
  exact ⟨h1, h2⟩

/-! ## The worked example 3.456 -/

theorem TRIM_PRECISION_exact_3456 : TRIM_PRECISION exactArith 3.456 = some 3.45 := by
  rw [TRIM_PRECISION_exact_of_range 3.456 (by rw [INT_MIN_eq]; norm_num)
    (by rw [INT_MAX_eq]; norm_num)]
  rw [truncTowardZero_eq_of_nonneg (n := 345) (by norm_num) (by norm_num) (by norm_num)]
  norm_num

theorem TRIM_PRECISION_exact_neg_3456 : TRIM_PRECISION exactArith (-3.456) = some (-3.45) := by
  rw [TRIM_PRECISION_exact_of_range (-3.456) (by rw [INT_MIN_eq]; norm_num)
    (by rw [INT_MAX_eq]; norm_num)]
  rw [truncTowardZero_eq_of_neg (n := -345) (by norm_num) (by norm_num) (by norm_num)]
  norm_num

theorem roundHundredths_3456 : roundHundredths 3.456 = 3.46 := by
  unfold roundHundredths
  have h : round (100 * 3.456 : ℚ) = 346 := by
    rw [round_eq, Int.floor_eq_iff]; constructor <;> norm_num
  rw [h]; norm_num

theorem binary32_lit_3456 : binary32.lit 3.456 = 14495515 / 4194304 := by
  show roundBinary32 3.456 = _
  rw [roundBinary32_eq_of_pos 1 14495515 (by norm_num) (by norm_num) (by norm_num)
    (by norm_num) (by norm_num)]
  norm_num

theorem binary32_lit_345 : binary32.lit 3.45 = 14470349 / 4194304 := by
  show roundBinary32 3.45 = _
  rw [roundBinary32_eq_of_pos 1 14470349 (by norm_num) (by norm_num) (by norm_num)
    (by norm_num) (by norm_num)]
  norm_num

theorem binary32_lit_346 : binary32.lit 3.46 = 3628073 / 1048576 := by
  show roundBinary32 3.46 = _
  rw [roundBinary32_eq_of_pos 1 14512292 (by norm_num) (by norm_num) (by norm_num)
    (by norm_num) (by norm_num)]
  norm_num

theorem TRIM_PRECISION_binary32_3456 :
    TRIM_PRECISION binary32 (binary32.lit 3.456) = some (binary32.lit 3.45) := by
  have hp : roundBinary32 (14495515 / 4194304 * 100) = 11324621 / 32768 := by
    rw [roundBinary32_eq_of_pos 8 11324621 (by norm_num) (by norm_num) (by norm_num)
      (by norm_num) (by norm_num)]
    norm_num
  have ht : toInt (roundBinary32 (14495515 / 4194304 * 100)) = some 345 := by
    rw [hp, toInt_eq_some_iff]
    refine ⟨truncTowardZero_eq_of_nonneg (by norm_num) (by norm_num) (by norm_num), ?_, ?_⟩
    · decide
    · decide
  rw [binary32_lit_3456, TRIM_PRECISION_binary32_of_toInt _ 345 ht, binary32_lit_345]
  have e : ((345 : ℤ) : ℚ) / 100 = 3.45 := by norm_num
  rw [e]
  exact congrArg some binary32_lit_345

/-! ## The rounded product against the exact product -/

theorem floor_le_roundHalfEven (z : ℚ) : ⌊z⌋ ≤ roundHalfEven z := by
  unfold roundHalfEven
  split_ifs <;> omega

theorem roundHalfEven_le_ceil (z : ℚ) : roundHalfEven z ≤ ⌈z⌉ := by
  have hfc : ⌊z⌋ ≤ ⌈z⌉ := Int.floor_le_ceil z
  have h0 : (⌊z⌋ : ℚ) ≤ z := Int.floor_le z
  unfold roundHalfEven
  split_ifs with ha hb hc
  · exact hfc
  · have : ⌊z⌋ < ⌈z⌉ := Int.lt_ceil.mpr (by linarith)
    omega
  · exact hfc
  · have : ⌊z⌋ < ⌈z⌉ := Int.lt_ceil.mpr (by linarith)
    omega

theorem roundBinary32_int_bounds {q : ℚ} (hq : |q| < (2 : ℚ) ^ ((23 : ℤ) + 1)) (k : ℤ) :
    ((k : ℚ) ≤ q → (k : ℚ) ≤ roundBinary32 q) ∧ (q ≤ (k : ℚ) → roundBinary32 q ≤ (k : ℚ)) := by
  rcases eq_or_ne q 0 with rfl | hne
  · rw [roundBinary32_zero]; exact ⟨fun h => h, fun h => h⟩
  · have hle := ulpExp_le hne hq (by norm_num)
    obtain ⟨j, hj⟩ : ∃ j : ℕ, ulpExp q = -(j : ℤ) := ⟨(-(ulpExp q)).toNat, by omega⟩
    have hpow : (0 : ℚ) < (2 : ℚ) ^ j := by positivity
    have hd : q / (2 : ℚ) ^ (-(j : ℤ)) = q * (2 : ℚ) ^ j := by
      rw [zpow_neg, zpow_natCast]; field_simp
    have hval : roundBinary32 q = (roundHalfEven (q * (2 : ℚ) ^ j) : ℚ) / (2 : ℚ) ^ j := by
      unfold roundBinary32
      rw [hj, hd, zpow_neg, zpow_natCast]; field_simp
    rw [hval]
    constructor
    · intro h
      have h1 : ((k * 2 ^ j : ℤ) : ℚ) ≤ q * (2 : ℚ) ^ j := by
        push_cast; exact mul_le_mul_of_nonneg_right h hpow.le
      have h2 : k * 2 ^ j ≤ roundHalfEven (q * (2 : ℚ) ^ j) :=
        le_trans (Int.le_floor.mpr h1) (floor_le_roundHalfEven _)
      have h3 : ((k * 2 ^ j : ℤ) : ℚ) ≤ (roundHalfEven (q * (2 : ℚ) ^ j) : ℚ) := by
        exact_mod_cast h2
      rw [le_div_iff₀ hpow]
      push_cast at h3
      exact h3
    · intro h
      have h1 : q * (2 : ℚ) ^ j ≤ ((k * 2 ^ j : ℤ) : ℚ) := by
        push_cast; exact mul_le_mul_of_nonneg_right h hpow.le
      have h2 : roundHalfEven (q * (2 : ℚ) ^ j) ≤ k * 2 ^ j :=
        le_trans (roundHalfEven_le_ceil _) (Int.ceil_le.mpr h1)
      have h3 : (roundHalfEven (q * (2 : ℚ) ^ j) : ℚ) ≤ ((k * 2 ^ j : ℤ) : ℚ) := by
        exact_mod_cast h2
      rw [div_le_iff₀ hpow]
      push_cast at h3
      exact h3

theorem truncTowardZero_roundBinary32 (q : ℚ) (hq : |q| < (2 : ℚ) ^ ((23 : ℤ) + 1)) :
    truncTowardZero (roundBinary32 q) = truncTowardZero q ∨
    (roundBinary32 q = (truncTowardZero (roundBinary32 q) : ℚ) ∧
      ((0 ≤ q ∧ truncTowardZero (roundBinary32 q) = truncTowardZero q + 1) ∨
       (q < 0 ∧ truncTowardZero (roundBinary32 q) = truncTowardZero q - 1))) := by
  by_cases h0 : 0 ≤ q
  · have ht : truncTowardZero q = ⌊q⌋ := by unfold truncTowardZero; rw [if_pos h0]
    have hlow := (roundBinary32_int_bounds hq ⌊q⌋).1 (Int.floor_le q)
    have hup := (roundBinary32_int_bounds hq (⌊q⌋ + 1)).2
      (by push_cast; exact (Int.lt_floor_add_one q).le)
    have hf0 : (0 : ℚ) ≤ (⌊q⌋ : ℚ) := by exact_mod_cast Int.floor_nonneg.mpr h0
    have hr0 : 0 ≤ roundBinary32 q := le_trans hf0 hlow
    have hn : truncTowardZero (roundBinary32 q) = ⌊roundBinary32 q⌋ := by
      unfold truncTowardZero; rw [if_pos hr0]
    rw [hn, ht]
    have h1 : ⌊q⌋ ≤ ⌊roundBinary32 q⌋ := Int.le_floor.mpr hlow
    have h2 : ⌊roundBinary32 q⌋ ≤ ⌊q⌋ + 1 := by
      have := Int.floor_mono hup
      rwa [Int.floor_intCast] at this
    rcases eq_or_lt_of_le h1 with h | h
    · left; exact h.symm
    · right
      have he : ⌊roundBinary32 q⌋ = ⌊q⌋ + 1 := by omega
      refine ⟨?_, Or.inl ⟨h0, he⟩⟩
      apply le_antisymm
      · rw [he]; exact hup
      · exact Int.floor_le _
  · have hq0 : q < 0 := not_le.mp h0
    have ht : truncTowardZero q = ⌈q⌉ := by unfold truncTowardZero; rw [if_neg h0]
    have hup := (roundBinary32_int_bounds hq ⌈q⌉).2 (Int.le_ceil q)
    have hlow := (roundBinary32_int_bounds hq (⌈q⌉ - 1)).1
      (by push_cast; linarith [Int.ceil_lt_add_one q])
    have hc0 : ⌈q⌉ ≤ 0 := Int.ceil_le.mpr (by push_cast; exact hq0.le)
    have hc0q : (⌈q⌉ : ℚ) ≤ 0 := by exact_mod_cast hc0
    rw [ht]
    by_cases hr0 : 0 ≤ roundBinary32 q
    · left
      have hz : roundBinary32 q = 0 := le_antisymm (le_trans hup hc0q) hr0
      have hcz : ⌈q⌉ = 0 := by
        have : (0 : ℚ) ≤ (⌈q⌉ : ℚ) := by rw [← hz]; exact hup
        have : 0 ≤ ⌈q⌉ := by exact_mod_cast this
        omega
      rw [hz, hcz]
      unfold truncTowardZero
      simp
    · have hn : truncTowardZero (roundBinary32 q) = ⌈roundBinary32 q⌉ := by
        unfold truncTowardZero; rw [if_neg hr0]
      rw [hn]
      have h1 : ⌈roundBinary32 q⌉ ≤ ⌈q⌉ := Int.ceil_le.mpr hup
      have h2 : ⌈q⌉ - 1 ≤ ⌈roundBinary32 q⌉ := by
        have := Int.ceil_mono hlow
        rwa [Int.ceil_intCast] at this
      rcases eq_or_lt_of_le h1 with h | h
      · left; exact h
      · right
        have he : ⌈roundBinary32 q⌉ = ⌈q⌉ - 1 := by omega
        refine ⟨?_, Or.inr ⟨hq0, he⟩⟩
        apply le_antisymm
        · exact Int.le_ceil _
        · rw [he]; exact hlow

theorem binary32_lit_058 : binary32.lit 0.58 = 9730785 / 16777216 := by
  show roundBinary32 0.58 = _
  rw [roundBinary32_eq_of_pos (-1) 9730785 (by norm_num) (by norm_num) (by norm_num)
    (by norm_num) (by norm_num)]
  norm_num

theorem binary32_lit_057 : binary32.lit 0.57 = 9563013 / 16777216 := by
  show roundBinary32 0.57 = _
  rw [roundBinary32_eq_of_pos (-1) 9563013 (by norm_num) (by norm_num) (by norm_num)
    (by norm_num) (by norm_num)]
  norm_num

theorem TRIM_PRECISION_binary32_058 :
    TRIM_PRECISION binary32 (9730785 / 16777216) = some (9730785 / 16777216) := by
  have hp : roundBinary32 (9730785 / 16777216 * 100) = 58 := by
    rw [roundBinary32_eq_of_pos 5 15204352 (by norm_num) (by norm_num) (by norm_num)
      (by norm_num) (by norm_num)]
    norm_num
  have ht : toInt (roundBinary32 (9730785 / 16777216 * 100)) = some 58 := by
    rw [hp, toInt_eq_some_iff]
    refine ⟨truncTowardZero_eq_of_nonneg (by norm_num) (by norm_num) (by norm_num), ?_, ?_⟩
    · decide
    · decide
  rw [TRIM_PRECISION_binary32_of_toInt _ 58 ht]
  have e : ((58 : ℤ) : ℚ) / 100 = 0.58 := by norm_num
  rw [e]
  exact congrArg some binary32_lit_058

/-- C1, as stated, fails in the arithmetic of the board: the binary32 value of 0.58,
9730785/16777216, lies just below 0.58, its exact product with 100 is 57.999998 (in
the range of int, integer part 57), but the binary32 product rounds to 58, so
TRIM_PRECISION returns the argument itself and not 57/100 nor the binary32 value of
0.57. -/
theorem TRIM_PRECISION_binary32_058_counterexample :
    ((INT_MIN : ℚ) ≤ 100 * (9730785 / 16777216) ∧
      100 * (9730785 / 16777216) ≤ (INT_MAX : ℚ)) ∧
    binary32.lit 0.58 = 9730785 / 16777216 ∧
    binary32.rnd (9730785 / 16777216) = 9730785 / 16777216 ∧
    truncTowardZero (100 * (9730785 / 16777216)) = 57 ∧
    TRIM_PRECISION binary32 (9730785 / 16777216) = some (9730785 / 16777216) ∧
    TRIM_PRECISION binary32 (9730785 / 16777216)
      ≠ some ((truncTowardZero (100 * (9730785 / 16777216)) : ℚ) / 100) ∧
    TRIM_PRECISION binary32 (9730785 / 16777216)
      ≠ some (binary32.div
          (binary32.ofInt (truncTowardZero (100 * (9730785 / 16777216))))
          (binary32.lit 100.0)) := by
  have ht : truncTowardZero (100 * (9730785 / 16777216)) = 57 :=
    truncTowardZero_eq_of_nonneg (by norm_num) (by norm_num) (by norm_num)
  refine ⟨⟨by rw [INT_MIN_eq]; norm_num, by rw [INT_MAX_eq]; norm_num⟩, binary32_lit_058, ?_,
    ht, TRIM_PRECISION_binary32_058, ?_, ?_⟩
  · show roundBinary32 (9730785 / 16777216) = _
    rw [roundBinary32_eq_of_pos (-1) 9730785 (by norm_num) (by norm_num) (by norm_num)
      (by norm_num) (by norm_num)]
    norm_num
  · rw [TRIM_PRECISION_binary32_058, ht]; norm_num
  · rw [TRIM_PRECISION_binary32_058, ht, binary32_div_100 57 (by norm_num)]
    have e : ((57 : ℤ) : ℚ) / 100 = 0.57 := by norm_num
    have h57 : roundBinary32 0.57 = 9563013 / 16777216 := binary32_lit_057
    rw [e, h57]; norm_num

/-- C1, amended: for every x whose product 100*x lies in the range of int,
TRIM_PRECISION(x) equals trunc(100*x)/100 in exact rational arithmetic. In the
binary32 arithmetic of the board it is the binary32 value of n/100, where n is the
integer part, toward zero, of the product rounded to binary32: n is trunc(100*x),
unless the product rounds to the next integer away from zero, and then n is that
integer. The integer part is cut, never rounded: TRIM_PRECISION(3.456) is 3.45 and
not 3.46 in both arithmetics, and TRIM_PRECISION(-3.456) is -3.45. -/
theorem TRIM_PRECISION_truncates (x : ℚ) (hlo : (INT_MIN : ℚ) ≤ 100 * x)
    (hhi : 100 * x ≤ (INT_MAX : ℚ)) :
    TRIM_PRECISION exactArith x = some ((truncTowardZero (100 * x) : ℚ) / 100) ∧
    TRIM_PRECISION binary32 x
      = some (roundBinary32 ((truncTowardZero (roundBinary32 (x * 100)) : ℚ) / 100)) ∧
    (∃ n : ℤ, toInt (binary32.mul x (binary32.ofInt 100)) = some n ∧
      TRIM_PRECISION binary32 x = some (binary32.div (binary32.ofInt n) (binary32.lit 100.0)) ∧
      (n = truncTowardZero (100 * x) ∨
        (binary32.mul x (binary32.ofInt 100) = (n : ℚ) ∧
          ((0 ≤ x ∧ n = truncTowardZero (100 * x) + 1) ∨
           (x < 0 ∧ n = truncTowardZero (100 * x) - 1))))) ∧
    TRIM_PRECISION exactArith 3.456 = some 3.45 ∧
    TRIM_PRECISION exactArith 3.456 ≠ some 3.46 ∧
    roundHundredths 3.456 = 3.46 ∧
    TRIM_PRECISION exactArith (-3.456) = some (-3.45) ∧
    TRIM_PRECISION binary32 (binary32.lit 3.456) = some (binary32.lit 3.45) ∧
    binary32.lit 3.45 ≠ binary32.lit 3.46 := by
  have ht := toInt_roundBinary32_of_range (x * 100) (by linarith) (by linarith)
  have hr := ((toInt_eq_some_iff _ _).mp ht).2
  have hr2 := hr
  rw [INT_MIN_eq, INT_MAX_eq] at hr2
  have hq : |x * 100| < (2 : ℚ) ^ ((23 : ℤ) + 1) := by
    rw [INT_MIN_eq] at hlo
    rw [INT_MAX_eq] at hhi
    push_cast at hlo hhi
    rw [abs_lt]; constructor <;> norm_num <;> linarith
  refine ⟨TRIM_PRECISION_exact_of_range x hlo hhi, ?_, ?_, TRIM_PRECISION_exact_3456, ?_,
    roundHundredths_3456, TRIM_PRECISION_exact_neg_3456, TRIM_PRECISION_binary32_3456, ?_⟩
  · exact TRIM_PRECISION_binary32_of_toInt x _ ht
  · refine ⟨truncTowardZero (roundBinary32 (x * 100)), ?_, ?_, ?_⟩
    · rw [binary32_mul_100]; exact ht
    · rw [binary32_div_100 _ (by rw [abs_lt]; constructor <;> omega)]
      exact TRIM_PRECISION_binary32_of_toInt x _ ht
    · rw [binary32_mul_100, mul_comm 100 x]
      rcases truncTowardZero_roundBinary32 (x * 100) hq with h | ⟨h1, h2⟩
      · left; exact h
      · right
        refine ⟨h1, ?_⟩
        rcases h2 with ⟨h0, h3⟩ | ⟨h0, h3⟩
        · left; exact ⟨by linarith, h3⟩
        · right; exact ⟨by linarith, h3⟩
  · rw [TRIM_PRECISION_exact_3456]; norm_num
  · rw [binary32_lit_345, binary32_lit_346]; norm_num

/-- Witness for C1 (amended) at x = 3.456, whose product 345.6 lies in the range of
int. -/
theorem TRIM_PRECISION_truncates_witness :
    ((INT_MIN : ℚ) ≤ 100 * 3.456 ∧ 100 * 3.456 ≤ (INT_MAX : ℚ)) ∧
    TRIM_PRECISION exactArith 3.456 = some ((truncTowardZero (100 * 3.456) : ℚ) / 100) ∧
    TRIM_PRECISION binary32 3.456
      = some (roundBinary32 ((truncTowardZero (roundBinary32 (3.456 * 100)) : ℚ) / 100)) :=
  ⟨⟨by rw [INT_MIN_eq]; norm_num, by rw [INT_MAX_eq]; norm_num⟩,
   (TRIM_PRECISION_truncates 3.456 (by rw [INT_MIN_eq]; norm_num)
      (by rw [INT_MAX_eq]; norm_num)).1,
   (TRIM_PRECISION_truncates 3.456 (by rw [INT_MIN_eq]; norm_num)
      (by rw [INT_MAX_eq]; norm_num)).2.1⟩

/-! ## Truncating twice -/

theorem binary32_lit_053 : binary32.lit 0.53 = 2222981 / 4194304 := by
  show roundBinary32 0.53 = _
  rw [roundBinary32_eq_of_pos (-1) 8891924 (by norm_num) (by norm_num) (by norm_num)
    (by norm_num) (by norm_num)]
  norm_num

theorem binary32_lit_052 : binary32.lit 0.52 = 1090519 / 2097152 := by
  show roundBinary32 0.52 = _
  rw [roundBinary32_eq_of_pos (-1) 8724152 (by norm_num) (by norm_num) (by norm_num)
    (by norm_num) (by norm_num)]
  norm_num

theorem TRIM_PRECISION_binary32_053125 :
    TRIM_PRECISION binary32 (17 / 32) = some (2222981 / 4194304) := by
  have hp : roundBinary32 (17 / 32 * 100) = 425 / 8 := by
    rw [roundBinary32_eq_of_pos 5 13926400 (by norm_num) (by norm_num) (by norm_num)
      (by norm_num) (by norm_num)]
    norm_num
  have ht : toInt (roundBinary32 (17 / 32 * 100)) = some 53 := by
    rw [hp, toInt_eq_some_iff]
    refine ⟨truncTowardZero_eq_of_nonneg (by norm_num) (by norm_num) (by norm_num), ?_, ?_⟩
    · decide
    · decide
  rw [TRIM_PRECISION_binary32_of_toInt _ 53 ht]
  have e : ((53 : ℤ) : ℚ) / 100 = 0.53 := by norm_num
  rw [e]
  exact congrArg some binary32_lit_053

theorem TRIM_PRECISION_binary32_053 :
    TRIM_PRECISION binary32 (2222981 / 4194304) = some (1090519 / 2097152) := by
  have hp : roundBinary32 (2222981 / 4194304 * 100) = 13893631 / 262144 := by
    rw [roundBinary32_eq_of_pos 5 13893631 (by norm_num) (by norm_num) (by norm_num)
      (by norm_num) (by norm_num)]
    norm_num
  have ht : toInt (roundBinary32 (2222981 / 4194304 * 100)) = some 52 := by
    rw [hp, toInt_eq_some_iff]
    refine ⟨truncTowardZero_eq_of_nonneg (by norm_num) (by norm_num) (by norm_num), ?_, ?_⟩
    · decide
    · decide
  rw [TRIM_PRECISION_binary32_of_toInt _ 52 ht]
  have e : ((52 : ℤ) : ℚ) / 100 = 0.52 := by norm_num
  rw [e]
  exact congrArg some binary32_lit_052

/-- C2, as stated, fails in the arithmetic of the board: 0.53125 is a binary32 value
whose product with 100 is 53.125, in the range of int; TRIM_PRECISION gives the
binary32 value of 0.53, which lies just below 0.53, and truncating that again gives
the binary32 value of 0.52. -/
theorem retruncation_binary32_counterexample :
    ((INT_MIN : ℚ) ≤ 100 * (17 / 32) ∧ 100 * (17 / 32) ≤ (INT_MAX : ℚ)) ∧
    binary32.rnd (17 / 32) = 17 / 32 ∧
    TRIM_PRECISION binary32 (17 / 32) = some (binary32.lit 0.53) ∧
    (TRIM_PRECISION binary32 (17 / 32)).bind (TRIM_PRECISION binary32)
      = some (binary32.lit 0.52) ∧
    (TRIM_PRECISION binary32 (17 / 32)).bind (TRIM_PRECISION binary32)
      ≠ TRIM_PRECISION binary32 (17 / 32) := by
  have h1 := TRIM_PRECISION_binary32_053125
  have h2 : (TRIM_PRECISION binary32 (17 / 32)).bind (TRIM_PRECISION binary32)
      = some (1090519 / 2097152) := by
    rw [h1, Option.some_bind, TRIM_PRECISION_binary32_053]
  refine ⟨⟨by rw [INT_MIN_eq]; norm_num, by rw [INT_MAX_eq]; norm_num⟩, ?_, ?_, ?_, ?_⟩
  · show roundBinary32 (17 / 32) = _
    rw [roundBinary32_eq_of_pos (-1) 8912896 (by norm_num) (by norm_num) (by norm_num)
      (by norm_num) (by norm_num)]
    norm_num
  · rw [h1, binary32_lit_053]
  · rw [h2, binary32_lit_052]
  · rw [h2, h1]; norm_num

theorem TRIM_PRECISION_exact_idempotent (x : ℚ) (hlo : (INT_MIN : ℚ) ≤ 100 * x)
    (hhi : 100 * x ≤ (INT_MAX : ℚ)) :
    (TRIM_PRECISION exactArith x).bind (TRIM_PRECISION exactArith) = TRIM_PRECISION exactArith x := by
  have hr : INT_MIN ≤ truncTowardZero (100 * x) ∧ truncTowardZero (100 * x) ≤ INT_MAX := by
    rw [INT_MIN_eq] at hlo ⊢
    rw [INT_MAX_eq] at hhi ⊢
    exact ⟨le_truncTowardZero (by norm_num) (by push_cast at hlo ⊢; linarith),
      truncTowardZero_le (by norm_num) (by push_cast at hhi ⊢; linarith)⟩
  have hc : (100 : ℚ) * ((truncTowardZero (100 * x) : ℚ) / 100) = truncTowardZero (100 * x) := by
    field_simp
  rw [TRIM_PRECISION_exact_of_range x hlo hhi, Option.some_bind,
    TRIM_PRECISION_exact_of_range _ (by rw [hc]; exact_mod_cast hr.1)
      (by rw [hc]; exact_mod_cast hr.2),
    hc, truncTowardZero_intCast]

theorem TRIM_PRECISION_binary32_twice (n : ℤ) (hn : INT_MIN ≤ n ∧ n ≤ INT_MAX) :
    ∃ m : ℤ, (m = n ∨ m = n - n.sign) ∧
      TRIM_PRECISION binary32 (roundBinary32 ((n : ℚ) / 100))
        = some (roundBinary32 ((m : ℚ) / 100)) := by
  rw [INT_MIN_eq, INT_MAX_eq] at hn
  obtain ⟨hn1, hn2⟩ := hn
  have hq1 : (-32768 : ℚ) ≤ n := by exact_mod_cast hn1
  have hq2 : (n : ℚ) ≤ 32767 := by exact_mod_cast hn2
  -- the quotient n / 100 rounded to binary32
  have e1 := abs_roundBinary32_sub_le_of_lt (q := (n : ℚ) / 100) (k := 8)
    (by rw [abs_lt]; constructor <;> norm_num <;> linarith) (by norm_num)
  have p1 : (2 : ℚ) ^ ((8 : ℤ) - 24) = 1 / 65536 := by norm_num
  rw [p1, abs_le] at e1
  -- its product with 100 rounded to binary32
  have e2 := abs_roundBinary32_sub_le_of_lt (q := roundBinary32 ((n : ℚ) / 100) * 100) (k := 15)
    (by rw [abs_lt]; constructor <;> norm_num <;> linarith [e1.1, e1.2]) (by norm_num)
  have p2 : (2 : ℚ) ^ ((15 : ℤ) - 24) = 1 / 512 := by norm_num
  rw [p2, abs_le] at e2
  have hnear : |roundBinary32 (roundBinary32 ((n : ℚ) / 100) * 100) - (n : ℚ)| < 1 := by
    rw [abs_lt]; constructor <;> linarith [e1.1, e1.2, e2.1, e2.2]
  have hm := truncTowardZero_near_int _ n hnear
  have hsign : -1 ≤ n.sign ∧ n.sign ≤ 1 := by
    rcases lt_trichotomy n 0 with h | h | h
    · rw [Int.sign_eq_neg_one_of_neg h]; omega
    · rw [h, Int.sign_zero]; omega
    · rw [Int.sign_eq_one_of_pos h]; omega
  have hsame : (0 < n → n.sign = 1) ∧ (n < 0 → n.sign = -1) :=
    ⟨Int.sign_eq_one_of_pos, Int.sign_eq_neg_one_of_neg⟩
  refine ⟨truncTowardZero (roundBinary32 (roundBinary32 ((n : ℚ) / 100) * 100)), hm, ?_⟩
  apply TRIM_PRECISION_binary32_of_toInt
  apply toInt_of_range
  rw [INT_MIN_eq, INT_MAX_eq]
  rcases lt_trichotomy n 0 with h | h | h
  · have := hsame.2 h
    rcases hm with hm | hm <;> rw [hm] <;> omega
  · subst h
    rcases hm with hm | hm <;> rw [hm] <;> simp
  · have := hsame.1 h
    rcases hm with hm | hm <;> rw [hm] <;> omega

/-- C2, amended: for every x whose product 100*x lies in the range of int, truncating
twice gives the same value as truncating once in exact arithmetic; in the binary32
arithmetic of the board, where the first truncation yields the binary32 value of
n/100, the second yields the binary32 value of m/100 with m either n or the
integer next to n toward zero (0.53 can become 0.52), and nothing else. -/
theorem TRIM_PRECISION_twice (x : ℚ) (hlo : (INT_MIN : ℚ) ≤ 100 * x)
    (hhi : 100 * x ≤ (INT_MAX : ℚ)) :
    (TRIM_PRECISION exactArith x).bind (TRIM_PRECISION exactArith) = TRIM_PRECISION exactArith x ∧
    ∃ n m : ℤ, toInt (binary32.mul x (binary32.ofInt 100)) = some n ∧
      (m = n ∨ m = n - n.sign) ∧
      TRIM_PRECISION binary32 x = some (binary32.div (binary32.ofInt n) (binary32.lit 100.0)) ∧
      binary32.div (binary32.ofInt n) (binary32.lit 100.0) = roundBinary32 ((n : ℚ) / 100) ∧
      (TRIM_PRECISION binary32 x).bind (TRIM_PRECISION binary32)
        = some (roundBinary32 ((m : ℚ) / 100)) := by
  refine ⟨TRIM_PRECISION_exact_idempotent x hlo hhi, ?_⟩
  have ht := toInt_roundBinary32_of_range (x * 100) (by linarith) (by linarith)
  have hr := ((toInt_eq_some_iff _ _).mp ht).2
  obtain ⟨m, hm, h2⟩ := TRIM_PRECISION_binary32_twice _ hr
  have hr2 := hr
  rw [INT_MIN_eq, INT_MAX_eq] at hr2
  have hd := binary32_div_100 (truncTowardZero (roundBinary32 (x * 100)))
    (by rw [abs_lt]; constructor <;> omega)
  refine ⟨truncTowardZero (roundBinary32 (x * 100)), m, ?_, hm, ?_, hd, ?_⟩
  · rw [binary32_mul_100]; exact ht
  · rw [hd]; exact TRIM_PRECISION_binary32_of_toInt x _ ht
  · rw [TRIM_PRECISION_binary32_of_toInt x _ ht, Option.some_bind, h2]

/-- Witness for C2 (amended) at x = 0.53125, whose product 53.125 lies in the range
of int. -/
theorem TRIM_PRECISION_twice_witness :
    ((INT_MIN : ℚ) ≤ 100 * (17 / 32) ∧ 100 * (17 / 32) ≤ (INT_MAX : ℚ)) ∧
    ((TRIM_PRECISION exactArith (17 / 32)).bind (TRIM_PRECISION exactArith)
        = TRIM_PRECISION exactArith (17 / 32) ∧
      ∃ n m : ℤ, toInt (binary32.mul (17 / 32) (binary32.ofInt 100)) = some n ∧
        (m = n ∨ m = n - n.sign) ∧
        TRIM_PRECISION binary32 (17 / 32)
          = some (binary32.div (binary32.ofInt n) (binary32.lit 100.0)) ∧
        binary32.div (binary32.ofInt n) (binary32.lit 100.0) = roundBinary32 ((n : ℚ) / 100) ∧
        (TRIM_PRECISION binary32 (17 / 32)).bind (TRIM_PRECISION binary32)
          = some (roundBinary32 ((m : ℚ) / 100))) :=
  ⟨⟨by rw [INT_MIN_eq]; norm_num, by rw [INT_MAX_eq]; norm_num⟩,
   TRIM_PRECISION_twice (17 / 32) (by rw [INT_MIN_eq]; norm_num)
     (by rw [INT_MAX_eq]; norm_num)⟩

/-- C9: for every x with 0 <= x <= EMPTY_LEVEL_MM the product 100*x lies within the
signed 16-bit range [-32768, 32767] of the int of the Arduino Mega, both in exact
arithmetic (where EMPTY_LEVEL_MM is 234.95) and rounded to binary32 on the board
(where EMPTY_LEVEL_MM is slightly smaller); so the conversion to int is defined, it
is the integer part of the product, and TRIM_PRECISION has a value. -/
theorem TRIM_PRECISION_cast_fits_int (x : ℚ) (h0 : 0 ≤ x) (h1 : x ≤ EMPTY_LEVEL_MM exactArith) :
    (INT_BITS = 16 ∧ INT_MIN = -32768 ∧ INT_MAX = 32767) ∧
    EMPTY_LEVEL_MM binary32 ≤ EMPTY_LEVEL_MM exactArith ∧
    ((-32768 : ℚ) ≤ exactArith.mul x (exactArith.ofInt 100) ∧ exactArith.mul x (exactArith.ofInt 100) ≤ 32767 ∧
      toInt (exactArith.mul x (exactArith.ofInt 100))
        = some (truncTowardZero (exactArith.mul x (exactArith.ofInt 100))) ∧
      TRIM_PRECISION exactArith x = some ((truncTowardZero (100 * x) : ℚ) / 100)) ∧
    ((-32768 : ℚ) ≤ binary32.mul x (binary32.ofInt 100) ∧
      binary32.mul x (binary32.ofInt 100) ≤ 32767 ∧
      toInt (binary32.mul x (binary32.ofInt 100))
        = some (truncTowardZero (binary32.mul x (binary32.ofInt 100))) ∧
      TRIM_PRECISION binary32 x
        = some (roundBinary32 ((truncTowardZero (roundBinary32 (x * 100)) : ℚ) / 100))) := by
  rw [EMPTY_LEVEL_MM_exact] at h1
  have hlo : (INT_MIN : ℚ) ≤ 100 * x := by rw [INT_MIN_eq]; push_cast; linarith
  have hhi : 100 * x ≤ (INT_MAX : ℚ) := by rw [INT_MAX_eq]; push_cast; linarith
  have hex : exactArith.mul x (exactArith.ofInt 100) = 100 * x := by
    show x * ((100 : ℤ) : ℚ) = 100 * x
    push_cast; ring
  have herr := abs_roundBinary32_sub_le_of_lt (q := x * 100) (k := 14)
    (by rw [abs_lt]; constructor <;> norm_num <;> linarith) (by norm_num)
  have p : (2 : ℚ) ^ ((14 : ℤ) - 24) = 1 / 1024 := by norm_num
  rw [p, abs_le] at herr
  have ht := toInt_roundBinary32_of_range (x * 100) (by linarith) (by linarith)
  refine ⟨⟨rfl, INT_MIN_eq, INT_MAX_eq⟩, ?_, ⟨?_, ?_, ?_, ?_⟩, ⟨?_, ?_, ?_, ?_⟩⟩
  · rw [EMPTY_LEVEL_MM_binary32, EMPTY_LEVEL_MM_exact]; norm_num
  · rw [hex]; linarith
  · rw [hex]; linarith
  · rw [hex]
    apply toInt_of_range
    rw [INT_MIN_eq] at hlo ⊢
    rw [INT_MAX_eq] at hhi ⊢
    exact ⟨le_truncTowardZero (by norm_num) (by push_cast at hlo ⊢; linarith),
      truncTowardZero_le (by norm_num) (by push_cast at hhi ⊢; linarith)⟩
  · exact TRIM_PRECISION_exact_of_range x hlo hhi
  · rw [binary32_mul_100]; linarith [herr.1]
  · rw [binary32_mul_100]; linarith [herr.2]
  · rw [binary32_mul_100]; exact ht
  · exact TRIM_PRECISION_binary32_of_toInt x _ ht

/-- Witness for C9 at the depth 100 mm, between 0 and EMPTY_LEVEL_MM. -/
theorem TRIM_PRECISION_cast_fits_int_witness :
    ((0 : ℚ) ≤ 100 ∧ (100 : ℚ) ≤ EMPTY_LEVEL_MM exactArith) ∧
    ((-32768 : ℚ) ≤ binary32.mul 100 (binary32.ofInt 100) ∧
      binary32.mul 100 (binary32.ofInt 100) ≤ 32767) :=
  ⟨⟨by norm_num, by rw [EMPTY_LEVEL_MM_exact]; norm_num⟩,
   (TRIM_PRECISION_cast_fits_int 100 (by norm_num)
      (by rw [EMPTY_LEVEL_MM_exact]; norm_num)).2.2.2.1,
   (TRIM_PRECISION_cast_fits_int 100 (by norm_num)
      (by rw [EMPTY_LEVEL_MM_exact]; norm_num)).2.2.2.2.1⟩

/-! ## The remaining claims -/

/-- C3, as stated, fails: with the configured constants the upper end
FULL_LEVEL_MM - EMPTY_LEVEL_MM is negative (-158.75 in exact arithmetic), so the
clamp of the depth 0 to the range from 0 to that end is -158.75, below 0. -/
theorem clamp_full_minus_empty_counterexample :
    clampDepth 0 (exactArith.sub (FULL_LEVEL_MM exactArith) (EMPTY_LEVEL_MM exactArith)) 0 = -158.75 ∧
    ¬ (0 ≤ clampDepth 0 (exactArith.sub (FULL_LEVEL_MM exactArith) (EMPTY_LEVEL_MM exactArith)) 0 ∧
       clampDepth 0 (exactArith.sub (FULL_LEVEL_MM exactArith) (EMPTY_LEVEL_MM exactArith)) 0
         ≤ exactArith.sub (FULL_LEVEL_MM exactArith) (EMPTY_LEVEL_MM exactArith)) := by
  have h : exactArith.sub (FULL_LEVEL_MM exactArith) (EMPTY_LEVEL_MM exactArith) = -158.75 := by
    show FULL_LEVEL_MM exactArith - EMPTY_LEVEL_MM exactArith = _
    rw [FULL_LEVEL_MM_exact, EMPTY_LEVEL_MM_exact]; norm_num
  rw [h]
  have hc : clampDepth 0 (-158.75) 0 = -158.75 := by
    unfold clampDepth; norm_num
  rw [hc]
  norm_num

/-- C3, amended: in exact arithmetic and in the arithmetic of the board, the
difference EMPTY_LEVEL_MM - FULL_LEVEL_MM is positive (158.75 in exact arithmetic)
while FULL_LEVEL_MM - EMPTY_LEVEL_MM is negative, and for every depth d the clamp of d
to the closed range from 0 to EMPTY_LEVEL_MM - FULL_LEVEL_MM lies in that range. -/
theorem clamp_empty_minus_full_bounds (d : ℚ) :
    (exactArith.sub (EMPTY_LEVEL_MM exactArith) (FULL_LEVEL_MM exactArith) = 158.75 ∧
      exactArith.sub (FULL_LEVEL_MM exactArith) (EMPTY_LEVEL_MM exactArith) < 0 ∧
      0 ≤ clampDepth 0 (exactArith.sub (EMPTY_LEVEL_MM exactArith) (FULL_LEVEL_MM exactArith)) d ∧
      clampDepth 0 (exactArith.sub (EMPTY_LEVEL_MM exactArith) (FULL_LEVEL_MM exactArith)) d
        ≤ exactArith.sub (EMPTY_LEVEL_MM exactArith) (FULL_LEVEL_MM exactArith)) ∧
    (0 < binary32.sub (EMPTY_LEVEL_MM binary32) (FULL_LEVEL_MM binary32) ∧
      binary32.sub (FULL_LEVEL_MM binary32) (EMPTY_LEVEL_MM binary32) < 0 ∧
      0 ≤ clampDepth 0 (binary32.sub (EMPTY_LEVEL_MM binary32) (FULL_LEVEL_MM binary32)) d ∧
      clampDepth 0 (binary32.sub (EMPTY_LEVEL_MM binary32) (FULL_LEVEL_MM binary32)) d
        ≤ binary32.sub (EMPTY_LEVEL_MM binary32) (FULL_LEVEL_MM binary32)) := by
  have he : exactArith.sub (EMPTY_LEVEL_MM exactArith) (FULL_LEVEL_MM exactArith) = 158.75 := by
    show EMPTY_LEVEL_MM exactArith - FULL_LEVEL_MM exactArith = _
    rw [FULL_LEVEL_MM_exact, EMPTY_LEVEL_MM_exact]; norm_num
  have he2 : exactArith.sub (FULL_LEVEL_MM exactArith) (EMPTY_LEVEL_MM exactArith) < 0 := by
    show FULL_LEVEL_MM exactArith - EMPTY_LEVEL_MM exactArith < 0
    rw [FULL_LEVEL_MM_exact, EMPTY_LEVEL_MM_exact]; norm_num
  have hb : binary32.sub (EMPTY_LEVEL_MM binary32) (FULL_LEVEL_MM binary32)
      = 10403839 / 65536 := by
    show roundBinary32 (EMPTY_LEVEL_MM binary32 - FULL_LEVEL_MM binary32) = _
    rw [FULL_LEVEL_MM_binary32, EMPTY_LEVEL_MM_binary32]
    rw [roundBinary32_eq_of_pos 7 10403839 (by norm_num) (by norm_num) (by norm_num)
      (by norm_num) (by norm_num)]
    norm_num
  have hb2 : binary32.sub (FULL_LEVEL_MM binary32) (EMPTY_LEVEL_MM binary32) < 0 := by
    show roundBinary32 (FULL_LEVEL_MM binary32 - EMPTY_LEVEL_MM binary32) < 0
    rw [FULL_LEVEL_MM_binary32, EMPTY_LEVEL_MM_binary32]
    have h := abs_roundBinary32_sub_le_of_lt
      (q := (4993843 / 65536 : ℚ) - 7698841 / 32768) (k := 7)
      (by rw [abs_lt]; constructor <;> norm_num) (by norm_num)
    rw [abs_le] at h
    have h2 := h.2
    norm_num at h2 ⊢
    linarith
  refine ⟨⟨he, he2, ?_, ?_⟩, ⟨by rw [hb]; norm_num, hb2, ?_, ?_⟩⟩
  · exact (clampDepth_mem 0 _ d (by rw [he]; norm_num)).1
  · exact (clampDepth_mem 0 _ d (by rw [he]; norm_num)).2
  · exact (clampDepth_mem 0 _ d (by rw [hb]; norm_num)).1
  · exact (clampDepth_mem 0 _ d (by rw [hb]; norm_num)).2

/-- C4: the six state codes EMPTY, OK, FULL, OVERFILL, ERR, ZERO are pairwise
distinct, they are exactly the integers 0 to 5, and every code identifies exactly
one of the six states (decoding the code of a state gives that state back). -/
theorem state_codes_distinct_and_cover :
    [EMPTY, OK, FULL, OVERFILL, ERR, ZERO].Nodup ∧
    [EMPTY, OK, FULL, OVERFILL, ERR, ZERO] = [0, 1, 2, 3, 4, 5] ∧
    Function.Injective LevelState.code ∧
    (∀ n : ℤ, (∃ s : LevelState, s.code = n) ↔ 0 ≤ n ∧ n ≤ 5) ∧
    (∀ (n : ℤ) (s : LevelState), LevelState.ofCode n = some s ↔ s.code = n) := by
  refine ⟨by decide, by decide, ?_, ?_, ?_⟩
  · intro s t h
    cases s <;> cases t <;> first | rfl | (exact absurd h (by decide))
  · intro n
    constructor
    · rintro ⟨s, rfl⟩
      cases s <;> decide
    · rintro ⟨h0, h5⟩
      have h : n = 0 ∨ n = 1 ∨ n = 2 ∨ n = 3 ∨ n = 4 ∨ n = 5 := by omega
      rcases h with rfl | rfl | rfl | rfl | rfl | rfl
      · exact ⟨.EMPTY, rfl⟩
      · exact ⟨.OK, rfl⟩
      · exact ⟨.FULL, rfl⟩
      · exact ⟨.OVERFILL, rfl⟩
      · exact ⟨.ERR, rfl⟩
      · exact ⟨.ZERO, rfl⟩
  · intro n s
    constructor
    · intro h
      unfold LevelState.ofCode at h
      split_ifs at h with h0 h1 h2 h3 h4 h5 <;> simp only [Option.some.injEq] at h <;>
        subst h <;> simp [LevelState.code, *]
    · rintro rfl
      cases s <;> decide

/-- C5 fails on the shipped header: with DEBUG and NO_SERIAL both defined, DPRINT
and DPRINTLN still expand to Serial.print and Serial.println of their arguments;
only SPRINT and SPRINTLN expand to nothing, as they do whenever NO_SERIAL is defined. -/
theorem debug_prints_despite_NO_SERIAL (args : String) :
    shipped.DEBUG = true ∧ shipped.NO_SERIAL = true ∧
    DPRINT shipped args = Expansion.serialPrint args ∧
    DPRINTLN shipped args = Expansion.serialPrintln args ∧
    DPRINT shipped args ≠ Expansion.nothing ∧
    DPRINTLN shipped args ≠ Expansion.nothing ∧
    (∀ debug : Bool, SPRINT ⟨debug, true⟩ args = Expansion.nothing ∧
      SPRINTLN ⟨debug, true⟩ args = Expansion.nothing) ∧
    (∀ noSerial : Bool, DPRINT ⟨true, noSerial⟩ args = Expansion.serialPrint args ∧
      DPRINTLN ⟨true, noSerial⟩ args = Expansion.serialPrintln args) := by
  refine ⟨rfl, rfl, rfl, rfl, ?_, ?_, ?_, ?_⟩
  · simp [DPRINT, shipped]
  · simp [DPRINTLN, shipped]
  · intro d
    simp [SPRINT, SPRINTLN]
  · intro n
    simp [DPRINT, DPRINTLN]

/-- C6: in exact rational arithmetic EMPTY_LEVEL_MM = SENSOR_H * 25.4 = 234.95 and
FULL_LEVEL_MM = FILL_H * 25.4 = 76.2, and for every x, IN2CM(x) = 2.54 * x, with
IN2CM(1) = 2.54; the token sequence of IN2CM evaluates to the same value. -/
theorem level_constants_in_millimetres (x : ℚ) :
    EMPTY_LEVEL_MM exactArith = SENSOR_H * 25.4 ∧ EMPTY_LEVEL_MM exactArith = 234.95 ∧
    FULL_LEVEL_MM exactArith = FILL_H * 25.4 ∧ FULL_LEVEL_MM exactArith = 76.2 ∧
    IN2CM exactArith x = 2.54 * x ∧ IN2CM exactArith 1 = 2.54 ∧
    evalTokens (IN2CM_tokens [Tok.num x]) = some (2.54 * x) := by
  refine ⟨?_, EMPTY_LEVEL_MM_exact, ?_, FULL_LEVEL_MM_exact, ?_, ?_, ?_⟩
  · rw [EMPTY_LEVEL_MM_exact]; unfold SENSOR_H; norm_num
  · rw [FULL_LEVEL_MM_exact]; unfold FILL_H; norm_num
  · rw [IN2CM_exact]; ring
  · rw [IN2CM_exact]; norm_num
  · rw [evalTokens_IN2CM_num, IN2CM_exact]; congr 1; ring

/-- C7 fails on the header: the slump correction is enabled, but the configured
FLUME_SLUMP is 1.2 inches, half an inch more than the 0.7 inch dip that the comment
on ACCOUNT_FOR_SLUMP documents. -/
theorem FLUME_SLUMP_is_not_documented_dip :
    ACCOUNT_FOR_SLUMP = true ∧ FLUME_SLUMP = 1.2 ∧ documentedSlumpDip = 0.7 ∧
    FLUME_SLUMP ≠ documentedSlumpDip ∧ FLUME_SLUMP - documentedSlumpDip = 0.5 := by
  refine ⟨rfl, rfl, rfl, ?_, ?_⟩
  · unfold FLUME_SLUMP documentedSlumpDip; norm_num
  · unfold FLUME_SLUMP documentedSlumpDip; norm_num

/-- C8, as stated, fails: compared by their codes ZERO < OK does not hold (ZERO is
5 and OK is 1), so the step from ZERO up to OK in the documented ordering lowers
the state code. -/
theorem ZERO_not_below_OK_counterexample :
    ¬ (ZERO < OK ∧ OK < FULL ∧ FULL < OVERFILL) ∧
    LevelState.atMost .ZERO .OK = true ∧
    ¬ (LevelState.ZERO.code ≤ LevelState.OK.code) := by
  refine ⟨by decide, by decide, by decide⟩

/-- C8, amended: compared by their codes, OK < FULL < OVERFILL holds and ZERO, with
code 5, is above all of them (and above ERR; the lowest code belongs to EMPTY); so a
classification that is monotone in depth for the documented ordering and never
yields ZERO is monotone in the state code. -/
theorem state_codes_order_above_zero (classify : ℚ → LevelState)
    (hz : ∀ d, classify d ≠ LevelState.ZERO)
    (hmono : ∀ d₁ d₂, d₁ ≤ d₂ → LevelState.atMost (classify d₁) (classify d₂) = true)
    (d₁ d₂ : ℚ) (h : d₁ ≤ d₂) :
    (classify d₁).code ≤ (classify d₂).code ∧
    (EMPTY < OK ∧ OK < FULL ∧ FULL < OVERFILL ∧ OVERFILL < ERR ∧ ERR < ZERO) := by
  refine ⟨?_, by decide⟩
  have h1 := hz d₁
  have h2 := hz d₂
  have h3 := hmono d₁ d₂ h
  revert h1 h2 h3
  generalize classify d₁ = s
  generalize classify d₂ = t
  cases s <;> cases t <;> decide

/-- Witness for C8: a step classification from OK to FULL at depth 76.2. -/
theorem state_codes_order_above_zero_witness :
    ((if (10 : ℚ) < 76.2 then LevelState.OK else LevelState.FULL).code
        ≤ (if (80 : ℚ) < 76.2 then LevelState.OK else LevelState.FULL).code) ∧
    (EMPTY < OK ∧ OK < FULL ∧ FULL < OVERFILL ∧ OVERFILL < ERR ∧ ERR < ZERO) :=
  state_codes_order_above_zero (fun d => if d < 76.2 then LevelState.OK else LevelState.FULL)
    (by intro d; dsimp only; split_ifs <;> decide)
    (by
      intro d₁ d₂ h
      dsimp only
      split_ifs with h1 h2 h2
      · decide
      · decide
      · exact absurd (lt_of_le_of_lt h h2) h1
      · decide)
    10 80 (by norm_num)

/-- C10: in exact rational arithmetic CM2IN(IN2CM(x)) = x and IN2CM(CM2IN(x)) = x for
every x, also for a compound argument a + b or a - b: the token sequences of the two
definitions, with the argument substituted token for token inside its parentheses,
evaluate to the conversion of the whole sum and compose to the identity. -/
theorem conversions_mutually_inverse (x a b : ℚ) :
    CM2IN exactArith (IN2CM exactArith x) = x ∧ IN2CM exactArith (CM2IN exactArith x) = x ∧
    evalTokens (CM2IN_tokens (IN2CM_tokens [Tok.num x])) = some x ∧
    evalTokens (IN2CM_tokens (CM2IN_tokens [Tok.num x])) = some x ∧
    evalTokens (IN2CM_tokens [Tok.num a, Tok.plus, Tok.num b]) = some (IN2CM exactArith (a + b)) ∧
    evalTokens (CM2IN_tokens [Tok.num a, Tok.plus, Tok.num b]) = some (CM2IN exactArith (a + b)) ∧
    evalTokens (CM2IN_tokens (IN2CM_tokens [Tok.num a, Tok.plus, Tok.num b])) = some (a + b) ∧
    evalTokens (IN2CM_tokens (CM2IN_tokens [Tok.num a, Tok.plus, Tok.num b])) = some (a + b) ∧
    evalTokens (CM2IN_tokens (IN2CM_tokens [Tok.num a, Tok.minus, Tok.num b])) = some (a - b) ∧
    evalTokens (IN2CM_tokens (CM2IN_tokens [Tok.num a, Tok.minus, Tok.num b])) = some (a - b) := by
  have h : (2.54 : ℚ) ≠ 0 := by norm_num
  refine ⟨?_, ?_, ?_, ?_, ?_, ?_, evalTokens_CM2IN_IN2CM_sum a b,
    evalTokens_IN2CM_CM2IN_sum a b, ?_, ?_⟩
  · rw [IN2CM_exact, CM2IN_exact]; field_simp
  · rw [IN2CM_exact, CM2IN_exact]; field_simp
  · simp [evalTokens, CM2IN_tokens, IN2CM_tokens, evalFrom, reduceTo, closeParen, finish,
      applyPending, Pending.prec, h]
  · simp [evalTokens, CM2IN_tokens, IN2CM_tokens, evalFrom, reduceTo, closeParen, finish,
      applyPending, Pending.prec, h]
  · simp [evalTokens, IN2CM_tokens, evalFrom, reduceTo, closeParen, finish,
      applyPending, Pending.prec, IN2CM_exact]
  · simp [evalTokens, CM2IN_tokens, evalFrom, reduceTo, closeParen, finish,
      applyPending, Pending.prec, CM2IN_exact, h]
  · simp [evalTokens, CM2IN_tokens, IN2CM_tokens, evalFrom, reduceTo, closeParen, finish,
      applyPending, Pending.prec, h]
  · simp [evalTokens, CM2IN_tokens, IN2CM_tokens, evalFrom, reduceTo, closeParen, finish,
      applyPending, Pending.prec, h]

end MegaEthWatershed
